import Mathlib

/-!
Verification development for the tvguide2xmltv pipeline
(`src/tvguide2xmltv.py`): the disk-backed response cache, the
retry/backoff listings client, the multi-hour/multi-day merge, and the
JSON-to-XMLTV converter.

The Python `datetime` values that the converter manipulates are modelled
by `PyDateTime`: an aware (or naive) datetime is represented by its
microseconds-since-epoch instant together with its UTC offset in whole
minutes (`none` for naive datetimes; naive datetimes are interpreted
with the local timezone equal to UTC, which is the only
environment-independent reading of `datetime.timestamp()` on naive
values).  Every operation the source uses — `fromisoformat`,
`replace(second=0, microsecond=0)`, `timestamp()`, `fromtimestamp`,
`strftime` and comparison — is defined on this representation.
-/

deriving instance DecidableEq for Except

/-- Days since 1970-01-01 of the civil date y-m-d (proleptic Gregorian),
the standard days-from-civil algorithm. -/
def days_from_civil (y : Int) (m d : Nat) : Int :=
  let yy : Int := if m ≤ 2 then y - 1 else y
  let era : Int := Int.ediv yy 400
  let yoe : Nat := (yy - era * 400).toNat
  let mp : Nat := (m + 9) % 12
  let doy : Nat := (153 * mp + 2) / 5 + d - 1
  let doe : Nat := yoe * 365 + yoe / 4 - yoe / 100 + doy
  era * 146097 + (doe : Int) - 719468

/-- Inverse of `days_from_civil`: civil date (y, m, d) of a day count. -/
def civil_from_days (z0 : Int) : Int × Nat × Nat :=
  let z : Int := z0 + 719468
  let era : Int := Int.ediv z 146097
  let doe : Nat := (z - era * 146097).toNat
  let yoe : Nat := (doe - doe / 1460 + doe / 36524 - doe / 146096) / 365
  let y : Int := (yoe : Int) + era * 400
  let doy : Nat := doe - (365 * yoe + yoe / 4 - yoe / 100)
  let mp : Nat := (5 * doy + 2) / 153
  let d : Nat := doy - (153 * mp + 2) / 5 + 1
  let m : Nat := if mp < 10 then mp + 3 else mp - 9
  (if m ≤ 2 then y + 1 else y, m, d)

def days_in_month (y m : Nat) : Nat :=
  if m = 2 then (if y % 4 = 0 ∧ (y % 100 ≠ 0 ∨ y % 400 = 0) then 29 else 28)
  else if m = 4 ∨ m = 6 ∨ m = 9 ∨ m = 11 then 30 else 31

/-- Model of a Python `datetime` value: the instant in microseconds since
the epoch, plus the `tzinfo` UTC offset in whole minutes (`none` = naive). -/
structure PyDateTime where
  epochMicro : Int
  tzMin : Option Int
deriving DecidableEq, Repr

/-- Build a `PyDateTime` from calendar fields and an optional offset. -/
def mk_datetime (y m d hh mi ss micro : Nat) (tz : Option Int) : PyDateTime :=
  { epochMicro :=
      (days_from_civil (Int.ofNat y) m d * 86400
        + (Int.ofNat (hh * 3600 + mi * 60 + ss))) * 1000000
        + (Int.ofNat micro) - tz.getD 0 * 60000000,
    tzMin := tz }

def digit_val (c : Char) : Option Nat :=
  if c.isDigit then some (c.toNat - 48) else none

/-- Read exactly `n` decimal digits. -/
def read_fixed : Nat → Nat → List Char → Option (Nat × List Char)
  | 0, acc, cs => some (acc, cs)
  | k + 1, acc, cs =>
    match cs with
    | [] => none
    | c :: rest =>
      match digit_val c with
      | some d => read_fixed k (acc * 10 + d) rest
      | none => none

/-- Read at most `k` leading digits; returns (value, digit count, rest). -/
def read_upto : Nat → Nat → Nat → List Char → Nat × Nat × List Char
  | 0, acc, cnt, cs => (acc, cnt, cs)
  | k + 1, acc, cnt, cs =>
    match cs with
    | [] => (acc, cnt, cs)
    | c :: rest =>
      match digit_val c with
      | some d => read_upto k (acc * 10 + d) (cnt + 1) rest
      | none => (acc, cnt, c :: rest)

def expect_char (ch : Char) : List Char → Option (List Char)
  | c :: rest => if c = ch then some rest else none
  | [] => none

/-- Parse the `[+-]HH:MM` trailing offset (or nothing, giving a naive
datetime); must consume the whole remainder. -/
def parse_offset (cs : List Char) : Except String (Option Int) :=
  match cs with
  | [] => .ok none
  | c :: rest =>
    if c = '+' ∨ c = '-' then
      match read_fixed 2 0 rest with
      | none => .error "Invalid isoformat string"
      | some (oh, rest2) =>
        match expect_char ':' rest2 with
        | none => .error "Invalid isoformat string"
        | some rest3 =>
          match read_fixed 2 0 rest3 with
          | none => .error "Invalid isoformat string"
          | some (om, rest4) =>
            if rest4 = [] ∧ oh ≤ 23 ∧ om ≤ 59 then
              .ok (some (if c = '-' then -(Int.ofNat (oh * 60 + om))
                         else Int.ofNat (oh * 60 + om)))
            else .error "Invalid isoformat string"
    else .error "Invalid isoformat string"

/-- Parse the time-of-day part `HH[:MM[:SS[.ffffff]]]` plus offset. -/
def parse_time_part (y m d : Nat) (cs : List Char) : Except String PyDateTime :=
  match read_fixed 2 0 cs with
  | none => .error "Invalid isoformat string"
  | some (hh, rest) =>
    if hh ≥ 24 then .error "Invalid isoformat string" else
    match rest with
    | ':' :: rest1 =>
      (match read_fixed 2 0 rest1 with
      | none => .error "Invalid isoformat string"
      | some (mi, rest2) =>
        if mi ≥ 60 then .error "Invalid isoformat string" else
        match rest2 with
        | ':' :: rest3 =>
          (match read_fixed 2 0 rest3 with
          | none => .error "Invalid isoformat string"
          | some (ss, rest4) =>
            if ss ≥ 60 then .error "Invalid isoformat string" else
            match rest4 with
            | '.' :: rest5 =>
              (match read_upto 6 0 0 rest5 with
              | (fv, cnt, rest6) =>
                let nextIsDigit : Bool :=
                  match rest6 with
                  | c :: _ => (digit_val c).isSome
                  | [] => false
                if cnt = 0 ∨ nextIsDigit = true then
                  .error "Invalid isoformat string"
                else
                  match parse_offset rest6 with
                  | .ok tz => .ok (mk_datetime y m d hh mi ss (fv * 10 ^ (6 - cnt)) tz)
                  | .error e => .error e)
            | _ =>
              match parse_offset rest4 with
              | .ok tz => .ok (mk_datetime y m d hh mi ss 0 tz)
              | .error e => .error e)
        | _ =>
          match parse_offset rest2 with
          | .ok tz => .ok (mk_datetime y m d hh mi 0 0 tz)
          | .error e => .error e)
    | _ =>
      match parse_offset rest with
      | .ok tz => .ok (mk_datetime y m d hh 0 0 0 tz)
      | .error e => .error e

/-- Model of Python `datetime.fromisoformat`:
`YYYY-MM-DD[<sep>HH[:MM[:SS[.ffffff]]]][+HH:MM]` with field validation. -/
def fromisoformat (s : String) : Except String PyDateTime :=
  match read_fixed 4 0 s.toList with
  | none => .error "Invalid isoformat string"
  | some (y, r1) =>
    match expect_char '-' r1 with
    | none => .error "Invalid isoformat string"
    | some r2 =>
      match read_fixed 2 0 r2 with
      | none => .error "Invalid isoformat string"
      | some (m, r3) =>
        match expect_char '-' r3 with
        | none => .error "Invalid isoformat string"
        | some r4 =>
          match read_fixed 2 0 r4 with
          | none => .error "Invalid isoformat string"
          | some (d, r5) =>
            if y = 0 ∨ m = 0 ∨ m > 12 ∨ d = 0 ∨ d > days_in_month y m then
              .error "Invalid isoformat string"
            else
              match r5 with
              | [] => .ok (mk_datetime y m d 0 0 0 0 none)
              | _sep :: r6 => parse_time_part y m d r6

/-- Model of `dt.replace(microsecond=0).replace(second=0)`: drop the sub-minute
part of the wall-clock time (offsets are whole minutes, so the
sub-minute part of the instant equals that of the wall clock). -/
def replace_sec_micro_zero (dt : PyDateTime) : PyDateTime :=
  { dt with epochMicro := dt.epochMicro - dt.epochMicro % 60000000 }

/-- Model of `dt.timestamp()` in microseconds. -/
def timestamp_micro (dt : PyDateTime) : Int := dt.epochMicro

/-- Model of `datetime.fromtimestamp(sec, tz)` (argument in microseconds). -/
def from_timestamp_micro (e : Int) (tz : Option Int) : PyDateTime :=
  { epochMicro := e, tzMin := tz }

def pad2 (n : Nat) : String := if n < 10 then "0" ++ toString n else toString n

def pad4 (n : Nat) : String :=
  if n < 10 then "000" ++ toString n
  else if n < 100 then "00" ++ toString n
  else if n < 1000 then "0" ++ toString n
  else toString n

/-- Model of `dt.strftime('%Y%m%d%H%M%S %z')` (the XMLTV time format used by
`_format_xmltv_time`); `%z` renders as the empty string for naive values. -/
def format_xmltv_time (dt : PyDateTime) : String :=
  let off := dt.tzMin.getD 0
  let wall := dt.epochMicro + off * 60000000
  let wallSec := Int.ediv wall 1000000
  let days := Int.ediv wallSec 86400
  let sod : Nat := (wallSec - days * 86400).toNat
  let c := civil_from_days days
  let tzs : String :=
    match dt.tzMin with
    | none => ""
    | some o => (if o < 0 then "-" else "+") ++ pad2 (o.natAbs / 60) ++ pad2 (o.natAbs % 60)
  pad4 c.1.toNat ++ pad2 c.2.1 ++ pad2 c.2.2 ++ pad2 (sod / 3600)
    ++ pad2 (sod % 3600 / 60) ++ pad2 (sod % 60) ++ " " ++ tzs

/-! ## GuideConverter (`TVGuideConverter`) -/

/-- A raw schedule object of the input JSON; `none` marks an absent key. -/
structure RawSchedule where
  pa_id : Option Nat
  title : Option String
  start_at : Option String
  duration : Option Int
  type : Option String
  image_url : Option String
  new : Option Bool
deriving DecidableEq, Repr

/-- A raw channel object of the input JSON; `none` marks an absent key. -/
structure RawChannel where
  pa_id : Option Nat
  title : Option String
  schedules : Option (List RawSchedule)
  slug : Option String
  logo_url : Option String
  epg : Option String
deriving DecidableEq, Repr

/-- Channel identity inside the converter: the slug when the key is
present, else the numeric `pa_id`. -/
def ChannelId := String ⊕ Nat
deriving DecidableEq, Repr

/-- The channel record stored by `_parse_channel`. -/
structure ChannelInfo where
  id : ChannelId
  title : String
  slug : String
  logo_url : String
  epg : String
  pa_id : Nat
deriving DecidableEq, Repr

/-- The programme record built by `_parse_programme`. -/
structure Programme where
  pa_id : Nat
  title : String
  type : String
  start : PyDateTime
  stop : PyDateTime
  channel : ChannelId
  image_url : String
  new : Bool
deriving DecidableEq, Repr

def replace_z_chars : List Char → List Char
  | [] => []
  | c :: rest =>
    if c = 'Z' then '+' :: '0' :: '0' :: ':' :: '0' :: '0' :: replace_z_chars rest
    else c :: replace_z_chars rest

/-- Model of `s.replace('Z', '+00:00')`: the pattern is a single character, so
Python's substring replacement is exactly character-wise replacement. -/
def replace_z (s : String) : String := String.mk (replace_z_chars s.data)

/-- Model of `_parse_programme`: required-field checks, ISO parsing of `start_at`
(after replacing `Z` with `+00:00`), and the stop-time computation
(minute-truncated start plus duration-in-minutes, same tzinfo). -/
def parse_programme (s : RawSchedule) (cid : ChannelId) : Except String Programme :=
  match s.pa_id with
  | none => .error "Missing required field 'pa_id' in schedule data"
  | some pid =>
  match s.title with
  | none => .error "Missing required field 'title' in schedule data"
  | some t =>
  match s.start_at with
  | none => .error "Missing required field 'start_at' in schedule data"
  | some sa =>
  match s.duration with
  | none => .error "Missing required field 'duration' in schedule data"
  | some dur =>
  match fromisoformat (replace_z sa) with
  | .error e => .error ("Invalid start_at format: " ++ e)
  | .ok start =>
    let stop := from_timestamp_micro
      (timestamp_micro (replace_sec_micro_zero start) + dur * 60 * 1000000)
      start.tzMin
    .ok { pa_id := pid, title := t, type := s.type.getD "",
          start := start, stop := stop, channel := cid,
          image_url := s.image_url.getD "", new := s.new.getD false }

/-- Converter state: the insertion-ordered channel dict and the
programme list. -/
structure ConvState where
  channels : List (ChannelId × ChannelInfo)
  programmes : List Programme
deriving DecidableEq, Repr

/-- Python-dict insert on an insertion-ordered association list: an
existing key keeps its position and gets the new value; a new key is
appended at the end. -/
def dict_insert : List (ChannelId × ChannelInfo) → ChannelId → ChannelInfo →
    List (ChannelId × ChannelInfo)
  | [], k, v => [(k, v)]
  | (k1, v1) :: rest, k, v =>
    if k1 = k then (k, v) :: rest else (k1, v1) :: dict_insert rest k v

/-- The schedule loop of `_parse_channel`, appending each parsed
programme to the accumulated programme list. -/
def parse_schedules : List RawSchedule → ChannelId → List Programme →
    Except String (List Programme)
  | [], _, acc => .ok acc
  | s :: rest, cid, acc =>
    match parse_programme s cid with
    | .ok p => parse_schedules rest cid (acc ++ [p])
    | .error e => .error e

/-- Model of `_parse_channel`: required-field checks, identity from slug-or-pa_id,
unconditional (last-wins) store of the channel record, then the schedule
loop. -/
def parse_channel (st : ConvState) (ch : RawChannel) : Except String ConvState :=
  match ch.pa_id with
  | none => .error "Missing required field 'pa_id' in channel data"
  | some pid =>
  match ch.title with
  | none => .error "Missing required field 'title' in channel data"
  | some t =>
  match ch.schedules with
  | none => .error "Missing required field 'schedules' in channel data"
  | some scheds =>
    let cid : ChannelId := match ch.slug with
      | some s => Sum.inl s
      | none => Sum.inr pid
    let info : ChannelInfo :=
      { id := cid, title := t, slug := ch.slug.getD "",
        logo_url := ch.logo_url.getD "", epg := ch.epg.getD "", pa_id := pid }
    match parse_schedules scheds cid st.programmes with
    | .ok progs => .ok { channels := dict_insert st.channels cid info,
                         programmes := progs }
    | .error e => .error e

def parse_json_go : List RawChannel → ConvState → Except String ConvState
  | [], st => .ok st
  | ch :: rest, st =>
    match parse_channel st ch with
    | .ok st1 => parse_json_go rest st1
    | .error e => .error e

/-- Model of `parse_json` over an already-decoded channel list. -/
def parse_json (data : List RawChannel) : Except String ConvState :=
  parse_json_go data { channels := [], programmes := [] }

/-- Channel identity as `_parse_channel` computes it, total on raw
channels (the `pa_id` default is irrelevant on well-formed input). -/
def raw_identity (ch : RawChannel) : ChannelId :=
  match ch.slug with
  | some s => Sum.inl s
  | none => Sum.inr (ch.pa_id.getD 0)

/-- The channel record `_parse_channel` stores, total on raw channels. -/
def mk_channel_info (ch : RawChannel) : ChannelInfo :=
  { id := raw_identity ch, title := ch.title.getD "", slug := ch.slug.getD "",
    logo_url := ch.logo_url.getD "", epg := ch.epg.getD "",
    pa_id := ch.pa_id.getD 0 }

/-- The programmes a single raw channel contributes (empty on a parse
failure, which cannot happen on the success path of `parse_json`). -/
def progs_of (ch : RawChannel) : List Programme :=
  match parse_schedules (ch.schedules.getD []) (raw_identity ch) [] with
  | .ok l => l
  | .error _ => []

/-- Lookup in the converter's channel dict. -/
def chan_lookup (m : List (ChannelId × ChannelInfo)) (cid : ChannelId) :
    Option ChannelInfo :=
  (m.find? (fun p => decide (p.1 = cid))).map Prod.snd

/-- The schedule object of the worked spec example:
`{pa_id:100, title:"News", start_at:"2025-01-15T20:00:00Z", duration:30}`. -/
def example_schedule : RawSchedule :=
  { pa_id := some 100, title := some "News",
    start_at := some "2025-01-15T20:00:00Z", duration := some 30,
    type := none, image_url := none, new := none }

/-- The channel object of the worked spec example:
`{pa_id:1, title:"BBC", schedules:[...]}`. -/
def example_channel : RawChannel :=
  { pa_id := some 1, title := some "BBC",
    schedules := some [example_schedule],
    slug := none, logo_url := none, epg := none }

/-! ## ResponseCache (`CacheManager`) -/

/-- A cache entry on disk: the file's modification time (seconds) and
its content, `none` when the file is corrupt or unreadable. -/
structure CacheFile (α : Type) where
  mtime : Int
  content : Option α
deriving DecidableEq, Repr

/-- Model of `get_cached_data`: returns the payload when the entry file exists,
its mtime age is strictly below the TTL, and it parses; any other case
(missing, expired, corrupt) yields `none`. -/
def get_cached_data {α : Type} (entry : Option (CacheFile α)) (now ttl : Int) :
    Option α :=
  match entry with
  | none => none
  | some f => if now - f.mtime < ttl then f.content else none

/-- One entry of a cache-directory listing. -/
structure DirEntry where
  name : String
  isFile : Bool
  size : Nat
deriving DecidableEq, Repr

def list_prefix_of : List Char → List Char → Bool
  | [], _ => true
  | _ :: _, [] => false
  | a :: as, b :: bs => decide (a = b) && list_prefix_of as bs

/-- Python `str.endswith(suffix)`. -/
def ends_with (s suffix : String) : Bool :=
  list_prefix_of suffix.data.reverse s.data.reverse

/-- The body of the `get_cache_stats` loop: count a regular file whose
name ends in `.json` and add its size. -/
def stats_step (acc : Nat × Nat) (e : DirEntry) : Nat × Nat :=
  if e.isFile && ends_with e.name ".json" then (acc.1 + 1, acc.2 + e.size)
  else acc

/-- Model of `get_cache_stats`: `(0, 0)` when the cache directory does not exist;
otherwise counts every regular file whose name ends in `.json` and sums
their sizes. -/
def get_cache_stats (dir : Option (List DirEntry)) : Nat × Nat :=
  match dir with
  | none => (0, 0)
  | some entries => entries.foldl stats_step (0, 0)

/-! ## ListingsClient (`TVGuideAPIClient`) and RangeFetcher -/

/-- A schedule record as the merge code sees it: the dedup key fields
`pa_id` and `start_at`, plus `title` standing for the remaining payload. -/
structure MSched where
  pa_id : Nat
  start_at : String
  title : String
deriving DecidableEq, Repr

/-- A channel record as the merge code sees it: the merge key `pa_id`,
the identity-relevant `slug`, `title`/`logo_url` standing for the rest
of the metadata, and the schedule list. -/
structure MChannel where
  pa_id : Nat
  slug : Option String
  title : String
  logo_url : String
  schedules : List MSched
deriving DecidableEq, Repr

/-- The error taxonomy of the fetch pipeline. The skip test in the range
fetchers is `cache_only and "No cached data available" in str(e)`; that
substring occurs exactly in the message of the `cacheMiss` error, so the
test is modelled as matching this constructor. -/
inductive FetchErr where
  | invalidRange : FetchErr
  | cacheMiss : String → FetchErr
  | invalidResponse : String → FetchErr
  | requestFailed : Nat → String → FetchErr
deriving DecidableEq, Repr

def FetchErr.isCacheMiss : FetchErr → Bool
  | .cacheMiss _ => true
  | _ => false

/-- Outcome of one HTTP attempt inside `fetch_listings`. -/
inductive AttemptResult where
  | transportErr : String → AttemptResult
  | invalidJson : String → AttemptResult
  | notList : AttemptResult
  | success : List MChannel → AttemptResult
deriving DecidableEq, Repr

/-- The retry loop of `fetch_listings` (`for attempt in
range(max_retries+1)`), recursing on `remaining = max_retries - attempt`
so that `attempt < max_retries` is `remaining > 0`.  Returns the result,
the backoff sleeps performed (seconds), and the number of attempts made.
A non-list or undecodable body raises immediately (not retried); a
transport failure retries with a `2 ^ attempt` second sleep until
retries are exhausted, then fails with `requestFailed` carrying the
total attempt count and the last underlying error. -/
def retry_go (f : Nat → AttemptResult) (attempt remaining : Nat)
    (sleeps : List Nat) : Except FetchErr (List MChannel) × List Nat × Nat :=
  match f attempt with
  | .success d => (.ok d, sleeps, attempt + 1)
  | .invalidJson m =>
    (.error (.invalidResponse ("Invalid JSON response from API: " ++ m)),
      sleeps, attempt + 1)
  | .notList =>
    (.error (.invalidResponse "Expected JSON array from API response"),
      sleeps, attempt + 1)
  | .transportErr m =>
    match remaining with
    | 0 => (.error (.requestFailed (attempt + 1) m), sleeps, attempt + 1)
    | r + 1 => retry_go f (attempt + 1) r (sleeps ++ [2 ^ attempt])

/-- Model of `fetch_listings`: cache lookup first (when `use_cache`), then the
`cache_only` miss error, then the retry loop.  The cache write on
success is a side effect with no bearing on the returned value and is
not modelled. -/
def fetch_listings (entry : Option (CacheFile (List MChannel)))
    (now ttl : Int) (use_cache cache_only : Bool)
    (f : Nat → AttemptResult) (max_retries : Nat) :
    Except FetchErr (List MChannel) × List Nat × Nat :=
  match (if use_cache then get_cached_data entry now ttl else none) with
  | some d => (.ok d, [], 0)
  | none =>
    if cache_only then
      (.error (.cacheMiss "No cached data available for key and cache_only mode is enabled"),
        [], 0)
    else retry_go f 0 max_retries []

/-- Dedup key of a schedule entry: `(s['pa_id'], s['start_at'])`. -/
def sched_key (s : MSched) : Nat × String := (s.pa_id, s.start_at)

def sched_keys (l : List MSched) : List (Nat × String) := l.map sched_key

/-- The schedule merge of `fetch_multiple_hours`/`fetch_multiple_days`:
`existing_schedules` is the key set of the accumulated list, computed
once, and incoming entries whose key is not in that fixed set are
appended. -/
def merge_schedules (old incoming : List MSched) : List MSched :=
  old ++ incoming.filter (fun s => decide (sched_key s ∉ sched_keys old))

/-- Merging one incoming channel into the accumulator dict
(`channels_dict` keyed by `channel['pa_id']`, insertion-ordered): a
known `pa_id` keeps its stored channel object (metadata untouched) and
only extends its schedule list; an unknown `pa_id` appends the incoming
object verbatim. -/
def merge_channel : List MChannel → MChannel → List MChannel
  | [], ch => [ch]
  | c :: rest, ch =>
    if c.pa_id = ch.pa_id then
      { c with schedules := merge_schedules c.schedules ch.schedules } :: rest
    else c :: merge_channel rest ch

/-- The per-page merge loop (`for channel in hour_data: ...`). -/
def merge_page (acc : List MChannel) (page : List MChannel) : List MChannel :=
  page.foldl merge_channel acc

/-- The hour loop of `fetch_multiple_hours`: each hour's fetch result is
merged into the accumulator; an error is skipped exactly when
`cache_only` holds and it is a cache miss, and any other error aborts. -/
def fetch_hours_go (f : Nat → Except FetchErr (List MChannel))
    (cache_only : Bool) : List Nat → List MChannel →
    Except FetchErr (List MChannel)
  | [], acc => .ok acc
  | h :: rest, acc =>
    match f h with
    | .ok page => fetch_hours_go f cache_only rest (merge_page acc page)
    | .error e =>
      if cache_only && e.isCacheMiss then fetch_hours_go f cache_only rest acc
      else .error e

/-- Model of `fetch_multiple_hours` over the per-hour fetch outcomes `f`:
`start_hour > end_hour` is an invalid range; otherwise the hours
`start_hour..end_hour` inclusive are fetched and merged, and the
accumulated channel list (`list(channels_dict.values())`) is returned. -/
def fetch_multiple_hours (f : Nat → Except FetchErr (List MChannel))
    (start_hour end_hour : Nat) (cache_only : Bool) :
    Except FetchErr (List MChannel) :=
  if start_hour > end_hour then .error .invalidRange
  else fetch_hours_go f cache_only
    (List.range' start_hour (end_hour + 1 - start_hour)) []

/-- Model of `fetch_multiple_days` over the per-day fetch outcomes `g` (each the
result of `fetch_multiple_hours` for that day): identical merge and
skip logic, iterating days `start_day..end_day` inclusive. -/
def fetch_multiple_days (g : Nat → Except FetchErr (List MChannel))
    (start_day end_day : Nat) (cache_only : Bool) :
    Except FetchErr (List MChannel) :=
  if start_day > end_day then .error .invalidRange
  else fetch_hours_go g cache_only
    (List.range' start_day (end_day + 1 - start_day)) []

/-- Channel identity as section 3 of the specification defines it for
range merging: the slug when present, else the provider id.  Modelled
from the spec for comparison with the code's actual merge key. -/
def chan_identity_spec (c : MChannel) : String ⊕ Nat :=
  match c.slug with
  | some s => Sum.inl s
  | none => Sum.inr c.pa_id

/-- First stored channel object for a given `pa_id` in the accumulator. -/
def find_chan (acc : List MChannel) (pid : Nat) : Option MChannel :=
  acc.find? (fun c => decide (c.pa_id = pid))

/-- The metadata of a merged channel record (everything except the
schedule list). -/
def chan_meta (c : MChannel) : Nat × Option String × String × String :=
  (c.pa_id, c.slug, c.title, c.logo_url)

/-- Holds when `k` is a dedup key occurring for channel id `pid` somewhere in the
page `l`. -/
def chan_keys (l : List MChannel) (pid : Nat) (k : Nat × String) : Prop :=
  ∃ c, c ∈ l ∧ c.pa_id = pid ∧ k ∈ sched_keys c.schedules

/-- The metadata stored for `pid` (through the channel record found
first for that key), the view under which merging preserves
first-seen metadata. -/
def meta_view (l : List MChannel) (pid : Nat) :
    Option (Nat × Option String × String × String) :=
  Option.map chan_meta (find_chan l pid)

/-- The dedup keys stored in the accumulator for channel id `pid`. -/
def acc_keys (acc : List MChannel) (pid : Nat) (k : Nat × String) : Prop :=
  ∃ c, find_chan acc pid = some c ∧ k ∈ sched_keys c.schedules

/-- The predicate `get_cache_stats` counts by. -/
def stats_pred (e : DirEntry) : Bool := e.isFile && ends_with e.name ".json"

/-- A stored cache entry: a `.json` file other than the metadata
catalogue (entry files are named `platform_region_date_hour.json` and
hence never `metadata.json`). -/
def stored_pred (e : DirEntry) : Bool :=
  stats_pred e && decide (e.name ≠ "metadata.json")

/-- The metadata catalogue file. -/
def meta_pred (e : DirEntry) : Bool :=
  e.isFile && decide (e.name = "metadata.json")

def stored_entry_count (dir : Option (List DirEntry)) : Nat :=
  match dir with
  | none => 0
  | some l => l.countP stored_pred

def stored_entry_bytes (dir : Option (List DirEntry)) : Nat :=
  match dir with
  | none => 0
  | some l => ((l.filter stored_pred).map DirEntry.size).sum

def metadata_file_count (dir : Option (List DirEntry)) : Nat :=
  match dir with
  | none => 0
  | some l => l.countP meta_pred

def metadata_file_bytes (dir : Option (List DirEntry)) : Nat :=
  match dir with
  | none => 0
  | some l => ((l.filter meta_pred).map DirEntry.size).sum

/-! ## Claim C5: cache read semantics -/

/-- C5: `get_cached_data` returns the stored payload exactly when an
entry exists for the key, its mtime age is strictly below the TTL, and
it is readable; in every other case (never cached, expired even though
the file exists, corrupt) it returns `none`, never an error. -/
theorem claim_c5 {α : Type} (entry : Option (CacheFile α)) (now ttl : Int) :
    (∀ p : α, get_cached_data entry now ttl = some p ↔
      ∃ f, entry = some f ∧ now - f.mtime < ttl ∧ f.content = some p) ∧
    (∀ f : CacheFile α, entry = some f → ttl ≤ now - f.mtime →
      get_cached_data entry now ttl = none) := by
  constructor
  · intro p
    cases entry with
    | none => simp [get_cached_data]
    | some f =>
      by_cases hlt : now - f.mtime < ttl
      · simp only [get_cached_data, if_pos hlt]
        constructor
        · intro hc; exact ⟨f, rfl, hlt, hc⟩
        · rintro ⟨g, hg, _, hc⟩
          cases hg
          exact hc
      · simp only [get_cached_data, if_neg hlt]
        constructor
        · intro h; cases h
        · rintro ⟨g, hg, hlt2, _⟩
          cases hg
          exact absurd hlt2 hlt
  · intro f hf hge
    cases hf
    simp only [get_cached_data, if_neg (not_lt.mpr hge)]

/-- Witness for C5: a fresh readable entry is returned, and the very
same entry is reported absent once its age reaches the TTL. -/
theorem claim_c5_witness :
    get_cached_data (some { mtime := 0, content := some 42 }) 10 5 =
      (none : Option Nat) :=
  (claim_c5 (some { mtime := 0, content := some (42 : Nat) }) 10 5).2
    { mtime := 0, content := some 42 } rfl (by decide)

/-! ## Claim C9: cache statistics -/

theorem stats_pred_split (e : DirEntry) :
    stats_pred e = (stored_pred e || meta_pred e) := by
  by_cases hm : e.name = "metadata.json"
  · simp only [stats_pred, stored_pred, meta_pred, hm]
    have h1 : ends_with "metadata.json" ".json" = true := by decide
    rw [h1]
    simp
  · simp only [stored_pred, meta_pred]
    simp [hm]

theorem stored_meta_disjoint (e : DirEntry) :
    stored_pred e = true → meta_pred e = false := by
  unfold stored_pred meta_pred
  by_cases hm : e.name = "metadata.json" <;> simp [hm]

theorem c9_fold (l : List DirEntry) : ∀ (a b : Nat),
    l.foldl stats_step (a, b)
    = (a + l.countP stored_pred + l.countP meta_pred,
       b + ((l.filter stored_pred).map DirEntry.size).sum
         + ((l.filter meta_pred).map DirEntry.size).sum) := by
  induction l with
  | nil => simp
  | cons e l ih =>
    intro a b
    have hsplit := stats_pred_split e
    simp only [stats_pred] at hsplit
    by_cases hs : stored_pred e = true
    · have hm : meta_pred e = false := stored_meta_disjoint e hs
      have hstep : stats_step (a, b) e = (a + 1, b + e.size) := by
        simp only [stats_step]
        rw [hsplit, hs, hm]
        rfl
      rw [List.foldl_cons, hstep, ih]
      simp [List.countP_cons, List.filter_cons, hs, hm, Prod.ext_iff]
      constructor <;> omega
    · have hs2 : stored_pred e = false := Bool.eq_false_iff.mpr hs
      by_cases hm : meta_pred e = true
      · have hstep : stats_step (a, b) e = (a + 1, b + e.size) := by
          simp only [stats_step]
          rw [hsplit, hs2, hm]
          rfl
        rw [List.foldl_cons, hstep, ih]
        simp [List.countP_cons, List.filter_cons, hs2, hm, Prod.ext_iff]
        constructor <;> omega
      · have hm2 : meta_pred e = false := Bool.eq_false_iff.mpr hm
        have hstep : stats_step (a, b) e = (a, b) := by
          simp only [stats_step]
          rw [hsplit, hs2, hm2]
          rfl
        rw [List.foldl_cons, hstep, ih]
        simp [List.countP_cons, List.filter_cons, hs2, hm2]

/-- C9 counterexample: a directory holding one stored entry (100 bytes)
plus the metadata catalogue (50 bytes).  `get_cache_stats` reports two
files totalling 150 bytes, while the stored entries number one with 100
bytes: the statistics include the metadata catalogue, contradicting the
claim that exactly the stored entries are counted. -/
theorem claim_c9_counterexample :
    get_cache_stats (some [{ name := "sky_london_2025-01-15_20.json", isFile := true, size := 100 },
                           { name := "metadata.json", isFile := true, size := 50 }])
      = (2, 150) ∧
    stored_entry_count (some [{ name := "sky_london_2025-01-15_20.json", isFile := true, size := 100 },
                              { name := "metadata.json", isFile := true, size := 50 }])
      = 1 ∧
    stored_entry_bytes (some [{ name := "sky_london_2025-01-15_20.json", isFile := true, size := 100 },
                              { name := "metadata.json", isFile := true, size := 50 }])
      = 100 ∧ ((2, 150) : Nat × Nat) ≠ (1, 100) := by
  refine ⟨by decide, by decide, by decide, by decide⟩

/-- C9 (amended): `get_cache_stats` returns the count and cumulative
size of the stored cache entries PLUS the metadata catalogue file when
it exists (it also ends in `.json` and is counted alongside the
entries); for a missing directory everything is zero. -/
theorem claim_c9 (dir : Option (List DirEntry)) :
    get_cache_stats dir =
      (stored_entry_count dir + metadata_file_count dir,
       stored_entry_bytes dir + metadata_file_bytes dir) := by
  cases dir with
  | none => rfl
  | some l =>
    simp only [get_cache_stats, stored_entry_count, metadata_file_count,
      stored_entry_bytes, metadata_file_bytes]
    rw [c9_fold l 0 0]
    simp

/-! ## Claim C3: retry policy -/

/-- C3: when the cache yields nothing, `cache_only` is off, and every
attempt fails at the transport level, a call with `max_retries = 3`
makes exactly 4 attempts separated by sleeps of 1, 2 and 4 seconds and
fails with the request-failed error wrapping the last underlying
failure. -/
theorem claim_c3 (entry : Option (CacheFile (List MChannel))) (now ttl : Int)
    (use_cache : Bool) (f : Nat → AttemptResult) (msgs : Nat → String)
    (hmiss : (if use_cache then get_cached_data entry now ttl else none) = none)
    (hf : ∀ i, i ≤ 3 → f i = .transportErr (msgs i)) :
    fetch_listings entry now ttl use_cache false f 3 =
      (.error (.requestFailed 4 (msgs 3)), [1, 2, 4], 4) := by
  have h0 := hf 0 (by omega)
  have h1 := hf 1 (by omega)
  have h2 := hf 2 (by omega)
  have h3 := hf 3 (by omega)
  unfold fetch_listings
  rw [hmiss]
  simp only [Bool.false_eq_true, if_false]
  unfold retry_go
  rw [h0]
  unfold retry_go
  rw [h1]
  unfold retry_go
  rw [h2]
  unfold retry_go
  rw [h3]
  norm_num

/-- Witness for C3 at a concrete always-failing attempt function. -/
theorem claim_c3_witness :
    fetch_listings (none : Option (CacheFile (List MChannel))) 0 3600 true false
        (fun i => .transportErr ("refused " ++ toString i)) 3 =
      (.error (.requestFailed 4 "refused 3"), [1, 2, 4], 4) := by
  have h := claim_c3 none 0 3600 true
    (fun i => .transportErr ("refused " ++ toString i))
    (fun i => "refused " ++ toString i) (by decide) (fun i _ => rfl)
  rw [h]
  decide

/-! ## Claim C4: cache-only skip versus abort -/

theorem fetch_hours_go_skip (f : Nat → Except FetchErr (List MChannel))
    (h : Nat) (msg : String) (hh : f h = .error (.cacheMiss msg)) :
    ∀ (l : List Nat) (acc : List MChannel),
      fetch_hours_go f true l acc =
        fetch_hours_go (fun x => if x = h then .ok [] else f x) true l acc := by
  intro l
  induction l with
  | nil => intro acc; rfl
  | cons x rest ih =>
    intro acc
    by_cases hx : x = h
    · subst hx
      simp only [fetch_hours_go, hh, FetchErr.isCacheMiss, Bool.and_self,
        if_pos rfl, ite_true]
      have hmp : merge_page acc [] = acc := rfl
      rw [hmp]
      exact ih acc
    · have hfeq : (if x = h then Except.ok ([] : List MChannel) else f x) = f x := by
        simp [hx]
      simp only [fetch_hours_go, hfeq]
      cases hfx : f x with
      | ok page => simp only []; exact ih (merge_page acc page)
      | error e =>
        by_cases hsk : (true && e.isCacheMiss) = true
        · simp only [hsk, if_pos rfl, ite_true]
          exact ih acc
        · simp [hsk]

theorem fetch_hours_go_abort (f : Nat → Except FetchErr (List MChannel))
    (co : Bool) (h : Nat) (err : FetchErr)
    (hf : f h = .error err) (hnc : err.isCacheMiss = false) :
    ∀ (n s : Nat) (acc : List MChannel), s ≤ h → h < s + n →
      (∀ h2, s ≤ h2 → h2 < h →
        (∃ page, f h2 = .ok page) ∨
        (co = true ∧ ∃ m, f h2 = .error (.cacheMiss m))) →
      fetch_hours_go f co (List.range' s n) acc = .error err := by
  intro n
  induction n with
  | zero =>
    intro s acc hs hlt _
    omega
  | succ m ih =>
    intro s acc hs hlt hpre
    show fetch_hours_go f co (s :: List.range' (s + 1) m) acc = .error err
    by_cases hsh : s = h
    · subst hsh
      have hcond : (co && err.isCacheMiss) = false := by rw [hnc]; simp
      simp only [fetch_hours_go, hf, hcond, Bool.false_eq_true, if_false,
        ite_false]
    · have hs2 : s < h := lt_of_le_of_ne hs hsh
      rcases hpre s (le_refl s) hs2 with ⟨page, hp⟩ | ⟨hco, m2, hp⟩
      · simp only [fetch_hours_go, hp]
        exact ih (s + 1) (merge_page acc page) (by omega) (by omega)
          (fun h2 ha hb => hpre h2 (by omega) hb)
      · have hsk : (co && FetchErr.isCacheMiss (.cacheMiss m2)) = true := by
          rw [hco]; rfl
        simp only [fetch_hours_go, hp, hsk, if_pos rfl, ite_true]
        exact ih (s + 1) acc (by omega) (by omega)
          (fun h2 ha hb => hpre h2 (by omega) hb)

/-- C4: in cache-only mode an hour whose fetch fails with a cache miss
is skipped — the range fetch behaves exactly as if that hour had
returned an empty page, so the remaining hours are still merged and
returned; and an error that is not a cache miss (here shown whenever the
skip condition fails, hence in any mode) aborts the whole range fetch
with that error, provided the earlier hours succeeded or were
skippable. -/
theorem claim_c4 :
    (∀ (f : Nat → Except FetchErr (List MChannel)) (s e h : Nat) (msg : String),
      f h = .error (.cacheMiss msg) →
      fetch_multiple_hours f s e true =
        fetch_multiple_hours (fun x => if x = h then .ok [] else f x) s e true) ∧
    (∀ (f : Nat → Except FetchErr (List MChannel)) (s e h : Nat)
       (err : FetchErr) (co : Bool),
      s ≤ h → h ≤ e → f h = .error err → err.isCacheMiss = false →
      (∀ h2, s ≤ h2 → h2 < h →
        (∃ page, f h2 = .ok page) ∨
        (co = true ∧ ∃ m, f h2 = .error (.cacheMiss m))) →
      fetch_multiple_hours f s e co = .error err) := by
  constructor
  · intro f s e h msg hh
    unfold fetch_multiple_hours
    by_cases hse : s > e
    · rw [if_pos hse, if_pos hse]
    · rw [if_neg hse, if_neg hse]
      exact fetch_hours_go_skip f h msg hh _ []
  · intro f s e h err co hs he hf hnc hpre
    unfold fetch_multiple_hours
    rw [if_neg (by omega)]
    exact fetch_hours_go_abort f co h err hf hnc (e + 1 - s) s [] hs (by omega) hpre

/-- Witness for C4: a 3-hour cache-only range where hour 1 is a cache
miss merges the other hours as if hour 1 were empty, and a 3-hour fetch
whose hour 2 fails with a transport error aborts with that error. -/
theorem claim_c4_witness :
    fetch_multiple_hours
        (fun x => if x = 1 then .error (.cacheMiss "m") else .ok []) 0 2 true =
      fetch_multiple_hours
        (fun x => if x = 1 then .ok []
                  else (fun x2 => if x2 = 1 then .error (.cacheMiss "m") else .ok []) x)
        0 2 true ∧
    fetch_multiple_hours
        (fun x => if x = 2 then .error (.requestFailed 4 "boom") else .ok []) 0 2 false =
      .error (.requestFailed 4 "boom") := by
  constructor
  · exact claim_c4.1 (fun x => if x = 1 then .error (.cacheMiss "m") else .ok [])
      0 2 1 "m" rfl
  · exact claim_c4.2 (fun x => if x = 2 then .error (.requestFailed 4 "boom") else .ok [])
      0 2 2 (.requestFailed 4 "boom") false (by omega) (by omega) rfl rfl
      (fun h2 _ hb => Or.inl ⟨[], by
        have : h2 ≠ 2 := by omega
        simp [this]⟩)

/-! ## Merge infrastructure: schedule-level lemmas -/

theorem mem_sched_keys_merge (x y : List MSched) (k : Nat × String) :
    k ∈ sched_keys (merge_schedules x y) ↔
      k ∈ sched_keys x ∨ k ∈ sched_keys y := by
  unfold merge_schedules sched_keys
  simp only [List.map_append, List.mem_append]
  constructor
  · rintro (h | h)
    · exact Or.inl h
    · right
      rcases List.mem_map.mp h with ⟨s, hs, hk⟩
      rcases List.mem_filter.mp hs with ⟨hsy, _⟩
      exact List.mem_map.mpr ⟨s, hsy, hk⟩
  · rintro (h | h)
    · exact Or.inl h
    · by_cases hx : k ∈ sched_keys x
      · exact Or.inl hx
      · right
        rcases List.mem_map.mp h with ⟨s, hsy, hk⟩
        apply List.mem_map.mpr
        refine ⟨s, List.mem_filter.mpr ⟨hsy, ?_⟩, hk⟩
        simp only [decide_eq_true_iff]
        rw [show sched_key s = k from hk]
        exact hx

theorem filter_keys_merge (x y z : List MSched) :
    z.filter (fun s => decide (sched_key s ∉ sched_keys (merge_schedules x y)))
      = (z.filter (fun s => decide (sched_key s ∉ sched_keys y))).filter
          (fun s => decide (sched_key s ∉ sched_keys x)) := by
  rw [List.filter_filter]
  apply List.filter_congr
  intro s _
  have hiff : sched_key s ∉ sched_keys (merge_schedules x y) ↔
      (sched_key s ∉ sched_keys x ∧ sched_key s ∉ sched_keys y) := by
    rw [mem_sched_keys_merge]
    tauto
  calc decide (sched_key s ∉ sched_keys (merge_schedules x y))
      = decide (sched_key s ∉ sched_keys x ∧ sched_key s ∉ sched_keys y) :=
        decide_eq_decide.mpr hiff
    _ = (decide (sched_key s ∉ sched_keys x)
          && decide (sched_key s ∉ sched_keys y)) := Bool.decide_and _ _

theorem merge_schedules_assoc (x y z : List MSched) :
    merge_schedules (merge_schedules x y) z =
      merge_schedules x (merge_schedules y z) := by
  have h1 : merge_schedules (merge_schedules x y) z
      = (x ++ y.filter (fun s => decide (sched_key s ∉ sched_keys x)))
        ++ z.filter (fun s => decide (sched_key s ∉ sched_keys (merge_schedules x y))) := rfl
  have h2 : merge_schedules x (merge_schedules y z)
      = x ++ (y ++ z.filter (fun s => decide (sched_key s ∉ sched_keys y))).filter
          (fun s => decide (sched_key s ∉ sched_keys x)) := rfl
  rw [h1, h2, List.filter_append, List.append_assoc]
  congr 2
  exact filter_keys_merge x y z

theorem merge_schedules_nodup (x y : List MSched)
    (hx : (sched_keys x).Nodup) (hy : (sched_keys y).Nodup) :
    (sched_keys (merge_schedules x y)).Nodup := by
  unfold merge_schedules sched_keys
  rw [List.map_append, List.nodup_append]
  refine ⟨hx, ?_, ?_⟩
  · exact hy.sublist ((List.filter_sublist y).map sched_key)
  · intro a ha hb
    rcases List.mem_map.mp hb with ⟨s, hsf, hk⟩
    rcases List.mem_filter.mp hsf with ⟨_, hdec⟩
    rw [decide_eq_true_iff] at hdec
    exact hdec (by rw [hk]; exact ha)

/-! ## Merge infrastructure: channel-level lemmas -/

theorem merge_channel_pa_ids (acc : List MChannel) (ch : MChannel) :
    (merge_channel acc ch).map MChannel.pa_id =
      if ch.pa_id ∈ acc.map MChannel.pa_id then acc.map MChannel.pa_id
      else acc.map MChannel.pa_id ++ [ch.pa_id] := by
  induction acc with
  | nil => simp [merge_channel]
  | cons c rest ih =>
    by_cases hc : c.pa_id = ch.pa_id
    · simp [merge_channel, hc]
    · have hcc : ¬ ch.pa_id = c.pa_id := fun h => hc h.symm
      by_cases hm : ch.pa_id ∈ rest.map MChannel.pa_id
      · simp [merge_channel, hc, hcc, ih, hm]
      · simp [merge_channel, hc, hcc, ih, hm]

theorem mem_pa_ids_merge_channel (acc : List MChannel) (ch : MChannel)
    (x : Nat) (hx : x ∈ acc.map MChannel.pa_id) :
    x ∈ (merge_channel acc ch).map MChannel.pa_id := by
  rw [merge_channel_pa_ids]
  by_cases hm : ch.pa_id ∈ acc.map MChannel.pa_id
  · rw [if_pos hm]; exact hx
  · rw [if_neg hm]; exact List.mem_append_left _ hx

theorem self_mem_pa_ids_merge_channel (acc : List MChannel) (ch : MChannel) :
    ch.pa_id ∈ (merge_channel acc ch).map MChannel.pa_id := by
  rw [merge_channel_pa_ids]
  by_cases hm : ch.pa_id ∈ acc.map MChannel.pa_id
  · rw [if_pos hm]; exact hm
  · rw [if_neg hm]; exact List.mem_append_right _ (by simp)

theorem merge_channel_nodup (acc : List MChannel) (ch : MChannel)
    (h : (acc.map MChannel.pa_id).Nodup) :
    ((merge_channel acc ch).map MChannel.pa_id).Nodup := by
  rw [merge_channel_pa_ids]
  by_cases hm : ch.pa_id ∈ acc.map MChannel.pa_id
  · rw [if_pos hm]; exact h
  · rw [if_neg hm, List.nodup_append]
    refine ⟨h, by simp, ?_⟩
    intro a ha hb
    simp at hb
    subst hb
    exact hm ha

theorem merge_page_nodup (page : List MChannel) :
    ∀ acc : List MChannel, (acc.map MChannel.pa_id).Nodup →
      ((merge_page acc page).map MChannel.pa_id).Nodup := by
  induction page with
  | nil => intro acc h; exact h
  | cons ch page ih =>
    intro acc h
    exact ih (merge_channel acc ch) (merge_channel_nodup acc ch h)

theorem merge_channel_twice (A : List MChannel) (b ch : MChannel)
    (hpe : ch.pa_id = b.pa_id) :
    merge_channel (merge_channel A b) ch =
      merge_channel A { b with schedules := merge_schedules b.schedules ch.schedules } := by
  have hb : b.pa_id = ch.pa_id := hpe.symm
  induction A with
  | nil => simp [merge_channel, hb]
  | cons a A ih =>
    by_cases ha : a.pa_id = b.pa_id
    · have hach : a.pa_id = ch.pa_id := ha.trans hb
      simp [merge_channel, ha, hach, hb, merge_schedules_assoc]
    · have ha2 : ¬ a.pa_id = ch.pa_id := fun h => ha (h.trans hpe)
      simp [merge_channel, ha, ha2, ih]

theorem merge_channel_comm (A : List MChannel) (p ch : MChannel)
    (hne : p.pa_id ≠ ch.pa_id) (hmem : ch.pa_id ∈ A.map MChannel.pa_id) :
    merge_channel (merge_channel A p) ch = merge_channel (merge_channel A ch) p := by
  have hcp : ¬ ch.pa_id = p.pa_id := fun h => hne h.symm
  induction A with
  | nil => simp at hmem
  | cons a A ih =>
    by_cases hac : a.pa_id = ch.pa_id
    · have hap : ¬ a.pa_id = p.pa_id := fun h => hne (h.symm.trans hac)
      simp [merge_channel, hac, hap, hcp]
    · by_cases hap : a.pa_id = p.pa_id
      · have hpc : ¬ p.pa_id = ch.pa_id := hne
        simp [merge_channel, hac, hap, hpc, hne]
      · have hmem2 : ch.pa_id ∈ A.map MChannel.pa_id := by
          have h2 := hmem
          simp only [List.map_cons, List.mem_cons] at h2
          rcases h2 with h2 | h2
          · exact absurd h2.symm hac
          · exact h2
        simp [merge_channel, hac, hap, ih hmem2]

theorem merge_channel_page_comm (P : List MChannel) :
    ∀ (A : List MChannel) (ch : MChannel),
      ch.pa_id ∈ A.map MChannel.pa_id →
      ch.pa_id ∉ P.map MChannel.pa_id →
      merge_channel (merge_page A P) ch = merge_page (merge_channel A ch) P := by
  induction P with
  | nil => intro A ch _ _; rfl
  | cons p P ih =>
    intro A ch hmemA hnmem
    have hsplit : ¬ ch.pa_id = p.pa_id ∧ ch.pa_id ∉ P.map MChannel.pa_id := by
      simp only [List.map_cons, List.mem_cons, not_or] at hnmem
      exact hnmem
    have hne : p.pa_id ≠ ch.pa_id := fun h => hsplit.1 h.symm
    show merge_channel (merge_page (merge_channel A p) P) ch
        = merge_page (merge_channel (merge_channel A ch) p) P
    rw [ih (merge_channel A p) ch
      (mem_pa_ids_merge_channel A p ch.pa_id hmemA) hsplit.2]
    rw [merge_channel_comm A p ch hne hmemA]

theorem merge_channel_page_assoc (B : List MChannel) :
    ∀ (A : List MChannel) (ch : MChannel),
      (B.map MChannel.pa_id).Nodup →
      merge_channel (merge_page A B) ch = merge_page A (merge_channel B ch) := by
  induction B with
  | nil => intro A ch _; rfl
  | cons b B ih =>
    intro A ch hnd
    have hndB : (B.map MChannel.pa_id).Nodup := by
      simp only [List.map_cons, List.nodup_cons] at hnd
      exact hnd.2
    have hbB : b.pa_id ∉ B.map MChannel.pa_id := by
      simp only [List.map_cons, List.nodup_cons] at hnd
      exact hnd.1
    by_cases hpe : ch.pa_id = b.pa_id
    · have hstep : merge_channel (b :: B) ch =
          { b with schedules := merge_schedules b.schedules ch.schedules } :: B := by
        simp [merge_channel, hpe.symm]
      rw [hstep]
      show merge_channel (merge_page (merge_channel A b) B) ch
          = merge_page (merge_channel A
              { b with schedules := merge_schedules b.schedules ch.schedules }) B
      rw [merge_channel_page_comm B (merge_channel A b) ch
        (by rw [hpe]; exact self_mem_pa_ids_merge_channel A b)
        (by rw [hpe]; exact hbB)]
      rw [merge_channel_twice A b ch hpe]
    · have hstep : merge_channel (b :: B) ch = b :: merge_channel B ch := by
        have hbp : ¬ b.pa_id = ch.pa_id := fun h => hpe h.symm
        simp [merge_channel, hbp]
      rw [hstep]
      show merge_channel (merge_page (merge_channel A b) B) ch
          = merge_page (merge_channel A b) (merge_channel B ch)
      exact ih (merge_channel A b) ch hndB

theorem merge_page_assoc (C : List MChannel) :
    ∀ (A B : List MChannel), (B.map MChannel.pa_id).Nodup →
      merge_page (merge_page A B) C = merge_page A (merge_page B C) := by
  induction C with
  | nil => intro A B _; rfl
  | cons ch C ih =>
    intro A B hnd
    show merge_page (merge_channel (merge_page A B) ch) C
        = merge_page A (merge_page (merge_channel B ch) C)
    rw [merge_channel_page_assoc B A ch hnd]
    exact ih A (merge_channel B ch) (merge_channel_nodup B ch hnd)

theorem merge_channel_of_not_mem (acc : List MChannel) (ch : MChannel)
    (h : ch.pa_id ∉ acc.map MChannel.pa_id) :
    merge_channel acc ch = acc ++ [ch] := by
  induction acc with
  | nil => rfl
  | cons a acc ih =>
    have hsplit : ¬ ch.pa_id = a.pa_id ∧ ch.pa_id ∉ acc.map MChannel.pa_id := by
      simp only [List.map_cons, List.mem_cons, not_or] at h
      exact h
    have ha : ¬ a.pa_id = ch.pa_id := fun h2 => hsplit.1 h2.symm
    simp [merge_channel, ha, ih hsplit.2]

theorem merge_page_disjoint (B : List MChannel) :
    ∀ acc : List MChannel, (B.map MChannel.pa_id).Nodup →
      (∀ x ∈ B.map MChannel.pa_id, x ∉ acc.map MChannel.pa_id) →
      merge_page acc B = acc ++ B := by
  induction B with
  | nil => intro acc _ _; simp [merge_page]
  | cons b B ih =>
    intro acc hnd hdisj
    have hndB : (B.map MChannel.pa_id).Nodup := by
      simp only [List.map_cons, List.nodup_cons] at hnd
      exact hnd.2
    have hbB : b.pa_id ∉ B.map MChannel.pa_id := by
      simp only [List.map_cons, List.nodup_cons] at hnd
      exact hnd.1
    have hb : b.pa_id ∉ acc.map MChannel.pa_id :=
      hdisj b.pa_id (by simp)
    show merge_page (merge_channel acc b) B = acc ++ b :: B
    rw [merge_channel_of_not_mem acc b hb]
    rw [ih (acc ++ [b]) hndB ?hdisj2]
    · simp
    case hdisj2 =>
      intro x hx
      simp only [List.map_append, List.mem_append]
      rintro (hx2 | hx2)
      · exact hdisj x (by simp [hx]) hx2
      · simp at hx2
        rw [hx2] at hx
        exact hbB hx

theorem merge_page_empty (B : List MChannel)
    (hnd : (B.map MChannel.pa_id).Nodup) : merge_page [] B = B := by
  have := merge_page_disjoint B [] hnd (by intro x _; simp)
  simpa using this

theorem fetch_hours_go_nodup (f : Nat → Except FetchErr (List MChannel))
    (co : Bool) :
    ∀ (l : List Nat) (acc d : List MChannel),
      (acc.map MChannel.pa_id).Nodup →
      fetch_hours_go f co l acc = .ok d →
      (d.map MChannel.pa_id).Nodup := by
  intro l
  induction l with
  | nil =>
    intro acc d hnd heq
    cases heq
    exact hnd
  | cons h rest ih =>
    intro acc d hnd heq
    simp only [fetch_hours_go] at heq
    split at heq
    · exact ih _ d (merge_page_nodup _ acc hnd) heq
    · split at heq
      · exact ih acc d hnd heq
      · cases heq

/-- The channel list returned by `fetch_multiple_hours` never repeats a
`pa_id` (it is `list(channels_dict.values())`). -/
theorem fetch_multiple_hours_nodup (f : Nat → Except FetchErr (List MChannel))
    (s e : Nat) (co : Bool) (d : List MChannel)
    (h : fetch_multiple_hours f s e co = .ok d) :
    (d.map MChannel.pa_id).Nodup := by
  unfold fetch_multiple_hours at h
  by_cases hse : s > e
  · rw [if_pos hse] at h
    cases h
  · rw [if_neg hse] at h
    exact fetch_hours_go_nodup f co _ [] d (by simp) h

/-! ## `find_chan` characterization and metadata preservation -/

theorem find_chan_merge_channel (acc : List MChannel) (ch : MChannel)
    (pid : Nat) :
    find_chan (merge_channel acc ch) pid =
      if pid = ch.pa_id then
        (match find_chan acc pid with
         | some c => some { c with schedules := merge_schedules c.schedules ch.schedules }
         | none => some ch)
      else find_chan acc pid := by
  induction acc with
  | nil =>
    by_cases hp : pid = ch.pa_id
    · simp [find_chan, merge_channel, hp]
    · have hp2 : ¬ ch.pa_id = pid := fun h => hp h.symm
      simp [find_chan, merge_channel, hp, hp2]
  | cons a acc ih =>
    by_cases hac : a.pa_id = ch.pa_id
    · by_cases hp : pid = ch.pa_id
      · have hap : a.pa_id = pid := hac.trans hp.symm
        simp [find_chan, merge_channel, hac, hp, hap]
      · have hap : ¬ a.pa_id = pid := fun h => hp (h.symm.trans hac)
        have hchp : ¬ ch.pa_id = pid := fun h => hp h.symm
        simp [find_chan, merge_channel, hac, hp, hap, hchp]
    · by_cases hap : a.pa_id = pid
      · have hp : ¬ pid = ch.pa_id := fun h => hac (hap.trans h)
        simp [find_chan, merge_channel, hac, hap, hp]
      · have hstep : merge_channel (a :: acc) ch = a :: merge_channel acc ch := by
          simp [merge_channel, hac]
        have hfind : ∀ (l : List MChannel),
            find_chan (a :: l) pid = find_chan l pid := by
          intro l
          simp [find_chan, hap]
        rw [hstep,
          show find_chan (a :: merge_channel acc ch) pid
              = find_chan (merge_channel acc ch) pid from hfind _,
          show find_chan (a :: acc) pid = find_chan acc pid from hfind _]
        exact ih

theorem meta_view_merge_channel (acc : List MChannel) (ch : MChannel)
    (pid : Nat) :
    meta_view (merge_channel acc ch) pid =
      match find_chan acc pid with
      | some c => some (chan_meta c)
      | none => if pid = ch.pa_id then some (chan_meta ch) else none := by
  unfold meta_view
  rw [find_chan_merge_channel]
  by_cases hp : pid = ch.pa_id
  · rw [if_pos hp]
    cases hfa : find_chan acc pid with
    | some c => simp [chan_meta]
    | none => simp [hp]
  · rw [if_neg hp]
    cases hfa : find_chan acc pid with
    | some c => simp
    | none => simp [hp]

theorem meta_view_append_singleton (seen : List MChannel) (ch : MChannel)
    (pid : Nat) :
    meta_view (seen ++ [ch]) pid =
      match find_chan seen pid with
      | some c => some (chan_meta c)
      | none => if pid = ch.pa_id then some (chan_meta ch) else none := by
  induction seen with
  | nil =>
    by_cases hp : pid = ch.pa_id
    · simp [meta_view, find_chan, hp]
    · have hp2 : ¬ ch.pa_id = pid := fun h => hp h.symm
      simp [meta_view, find_chan, hp, hp2]
  | cons a seen ih =>
    by_cases hap : a.pa_id = pid
    · simp [meta_view, find_chan, hap]
    · have hfind1 : find_chan ((a :: seen) ++ [ch]) pid
          = find_chan (seen ++ [ch]) pid := by
        simp [find_chan, hap]
      have hfind2 : find_chan (a :: seen) pid = find_chan seen pid := by
        simp [find_chan, hap]
      unfold meta_view at ih ⊢
      rw [show (a :: seen) ++ [ch] = a :: (seen ++ [ch]) from rfl] at *
      rw [show find_chan (a :: (seen ++ [ch])) pid
          = find_chan (seen ++ [ch]) pid from hfind1]
      rw [hfind2]
      exact ih

theorem meta_view_step (acc seen : List MChannel) (ch : MChannel)
    (h : ∀ pid2, meta_view acc pid2 = meta_view seen pid2) (pid : Nat) :
    meta_view (merge_channel acc ch) pid = meta_view (seen ++ [ch]) pid := by
  rw [meta_view_merge_channel, meta_view_append_singleton]
  have h2 := h pid
  unfold meta_view at h2
  cases hfa : find_chan acc pid with
  | some c =>
    cases hfs : find_chan seen pid with
    | some c2 =>
      rw [hfa, hfs] at h2
      simp only [Option.map_some'] at h2
      simp only []
      rw [show chan_meta c = chan_meta c2 from by injection h2]
    | none =>
      rw [hfa, hfs] at h2
      simp at h2
  | none =>
    cases hfs : find_chan seen pid with
    | some c2 =>
      rw [hfa, hfs] at h2
      simp at h2
    | none => rfl

theorem meta_view_merge_page (page : List MChannel) :
    ∀ (acc seen : List MChannel),
      (∀ pid, meta_view acc pid = meta_view seen pid) →
      ∀ pid, meta_view (merge_page acc page) pid = meta_view (seen ++ page) pid := by
  induction page with
  | nil =>
    intro acc seen h pid
    simpa using h pid
  | cons ch page ih =>
    intro acc seen h pid
    have h2 : ∀ pid2, meta_view (merge_channel acc ch) pid2
        = meta_view (seen ++ [ch]) pid2 :=
      fun pid2 => meta_view_step acc seen ch h pid2
    have h3 := ih (merge_channel acc ch) (seen ++ [ch]) h2 pid
    rw [show (seen ++ [ch]) ++ page = seen ++ ch :: page from by simp] at h3
    exact h3

theorem meta_view_fold (pages : List (List MChannel)) :
    ∀ (acc seen : List MChannel),
      (∀ pid, meta_view acc pid = meta_view seen pid) →
      ∀ pid, meta_view (pages.foldl merge_page acc) pid
        = meta_view (seen ++ pages.flatten) pid := by
  induction pages with
  | nil =>
    intro acc seen h pid
    simpa using h pid
  | cons page pages ih =>
    intro acc seen h pid
    have h2 := meta_view_merge_page page acc seen h
    have h3 := ih (merge_page acc page) (seen ++ page) h2 pid
    rw [show (seen ++ page) ++ pages.flatten = seen ++ (page :: pages).flatten
      from by simp [List.flatten]] at h3
    exact h3

theorem acc_keys_nil (pid : Nat) (k : Nat × String) : ¬ acc_keys [] pid k := by
  rintro ⟨c, hc, _⟩
  simp [find_chan] at hc

theorem acc_keys_merge_channel (acc : List MChannel) (ch : MChannel)
    (pid : Nat) (k : Nat × String) :
    acc_keys (merge_channel acc ch) pid k ↔
      acc_keys acc pid k ∨ (ch.pa_id = pid ∧ k ∈ sched_keys ch.schedules) := by
  unfold acc_keys
  rw [find_chan_merge_channel]
  by_cases hp : pid = ch.pa_id
  · rw [if_pos hp]
    cases hfa : find_chan acc pid with
    | some c =>
      constructor
      · rintro ⟨c2, hc2, hk⟩
        injection hc2 with h
        subst h
        rcases (mem_sched_keys_merge c.schedules ch.schedules k).mp hk with h | h
        · exact Or.inl ⟨c, rfl, h⟩
        · exact Or.inr ⟨hp.symm, h⟩
      · rintro (⟨c2, hc2, hk⟩ | ⟨_, hk⟩)
        · injection hc2 with h
          subst h
          exact ⟨_, rfl, (mem_sched_keys_merge _ _ _).mpr (Or.inl hk)⟩
        · exact ⟨_, rfl, (mem_sched_keys_merge _ _ _).mpr (Or.inr hk)⟩
    | none =>
      constructor
      · rintro ⟨c2, hc2, hk⟩
        injection hc2 with h
        subst h
        exact Or.inr ⟨hp.symm, hk⟩
      · rintro (⟨c2, hc2, hk⟩ | ⟨_, hk⟩)
        · cases hc2
        · exact ⟨ch, rfl, hk⟩
  · rw [if_neg hp]
    constructor
    · exact Or.inl
    · rintro (h | ⟨hch, _⟩)
      · exact h
      · exact absurd hch.symm hp

theorem chan_keys_cons (ch : MChannel) (l : List MChannel) (pid : Nat)
    (k : Nat × String) :
    chan_keys (ch :: l) pid k ↔
      (ch.pa_id = pid ∧ k ∈ sched_keys ch.schedules) ∨ chan_keys l pid k := by
  unfold chan_keys
  constructor
  · rintro ⟨c, hc, hpid, hk⟩
    rcases List.mem_cons.mp hc with rfl | hc2
    · exact Or.inl ⟨hpid, hk⟩
    · exact Or.inr ⟨c, hc2, hpid, hk⟩
  · rintro (⟨hpid, hk⟩ | ⟨c, hc, hpid, hk⟩)
    · exact ⟨ch, List.mem_cons_self ch l, hpid, hk⟩
    · exact ⟨c, List.mem_cons_of_mem ch hc, hpid, hk⟩

theorem acc_keys_merge_page (page : List MChannel) :
    ∀ (acc : List MChannel) (pid : Nat) (k : Nat × String),
      acc_keys (merge_page acc page) pid k ↔
        acc_keys acc pid k ∨ chan_keys page pid k := by
  induction page with
  | nil =>
    intro acc pid k
    unfold chan_keys
    simp [merge_page]
  | cons ch page ih =>
    intro acc pid k
    show acc_keys (merge_page (merge_channel acc ch) page) pid k ↔ _
    rw [ih, acc_keys_merge_channel, chan_keys_cons]
    tauto

theorem merge_channel_sched_nodup (ch : MChannel)
    (hch : (sched_keys ch.schedules).Nodup) :
    ∀ acc : List MChannel,
      (∀ c ∈ acc, (sched_keys c.schedules).Nodup) →
      ∀ c ∈ merge_channel acc ch, (sched_keys c.schedules).Nodup := by
  intro acc
  induction acc with
  | nil =>
    intro _ c hc
    simp [merge_channel] at hc
    subst hc
    exact hch
  | cons a acc ih =>
    intro hacc c hc
    by_cases ha : a.pa_id = ch.pa_id
    · rw [show merge_channel (a :: acc) ch =
          { a with schedules := merge_schedules a.schedules ch.schedules } :: acc
        from by simp [merge_channel, ha]] at hc
      rcases List.mem_cons.mp hc with hceq | hc2
      · rw [hceq]
        exact merge_schedules_nodup _ _ (hacc a (by simp)) hch
      · exact hacc c (by simp [hc2])
    · rw [show merge_channel (a :: acc) ch = a :: merge_channel acc ch
        from by simp [merge_channel, ha]] at hc
      rcases List.mem_cons.mp hc with hceq | hc2
      · rw [hceq]
        exact hacc a (by simp)
      · exact ih (fun c2 hm => hacc c2 (by simp [hm])) c hc2

theorem merge_page_sched_nodup (page : List MChannel) :
    ∀ acc : List MChannel,
      (∀ c ∈ acc, (sched_keys c.schedules).Nodup) →
      (∀ c ∈ page, (sched_keys c.schedules).Nodup) →
      ∀ c ∈ merge_page acc page, (sched_keys c.schedules).Nodup := by
  induction page with
  | nil => intro acc hacc _ c hc; exact hacc c hc
  | cons ch page ih =>
    intro acc hacc hpage c hc
    exact ih (merge_channel acc ch)
      (merge_channel_sched_nodup ch (hpage ch (by simp)) acc hacc)
      (fun c2 hm => hpage c2 (by simp [hm])) c hc

theorem find_chan_of_mem (acc : List MChannel) :
    (acc.map MChannel.pa_id).Nodup →
      ∀ c ∈ acc, find_chan acc c.pa_id = some c := by
  induction acc with
  | nil => intro _ c hc; cases hc
  | cons a acc ih =>
    intro hnd c hc
    have hnd2 : a.pa_id ∉ acc.map MChannel.pa_id ∧
        (acc.map MChannel.pa_id).Nodup := by
      simp only [List.map_cons, List.nodup_cons] at hnd
      exact hnd
    rcases List.mem_cons.mp hc with rfl | hc2
    · simp [find_chan]
    · have ha : ¬ a.pa_id = c.pa_id := by
        intro h
        exact hnd2.1 (h ▸ List.mem_map.mpr ⟨c, hc2, rfl⟩)
      have hsk : find_chan (a :: acc) c.pa_id = find_chan acc c.pa_id := by
        simp [find_chan, ha]
      rw [hsk]
      exact ih hnd2.2 c hc2

/-! ## Claim C1: merge dedup -/

/-- C1 counterexample: two hour pages for the same channel with
overlapping-but-not-identical schedule lists, where the incoming page
itself repeats a dedup key.  `existing_schedules` is computed once
before the inner loop, so both copies pass the membership test and the
merged list ends with a repeated (provider id, start string) pair. -/
theorem claim_c1_counterexample :
    fetch_multiple_hours
        (fun h => if h = 0
          then .ok [⟨1, none, "BBC One", "", [⟨10, "2025-01-15T20:00:00Z", "News"⟩]⟩]
          else .ok [⟨1, none, "BBC One", "",
            [⟨10, "2025-01-15T20:00:00Z", "News"⟩,
             ⟨11, "2025-01-15T20:30:00Z", "Film"⟩,
             ⟨11, "2025-01-15T20:30:00Z", "Film rerun"⟩]⟩])
        0 1 false
      = .ok [⟨1, none, "BBC One", "",
          [⟨10, "2025-01-15T20:00:00Z", "News"⟩,
           ⟨11, "2025-01-15T20:30:00Z", "Film"⟩,
           ⟨11, "2025-01-15T20:30:00Z", "Film rerun"⟩]⟩] ∧
    ¬ (sched_keys [⟨10, "2025-01-15T20:00:00Z", "News"⟩,
         ⟨11, "2025-01-15T20:30:00Z", "Film"⟩,
         ⟨11, "2025-01-15T20:30:00Z", "Film rerun"⟩]).Nodup := by
  exact ⟨by decide, by decide⟩

/-- C1 (amended): merging two hour pages whose per-channel schedule
lists each carry pairwise-distinct (provider id, start string) keys
yields channels with pairwise-distinct `pa_id`s, whose schedule lists
again have pairwise-distinct keys, and whose key sets are exactly the
union of the keys the two pages carry for that channel id. -/
theorem claim_c1 (p1 p2 : List MChannel)
    (h1 : ∀ c ∈ p1, (sched_keys c.schedules).Nodup)
    (h2 : ∀ c ∈ p2, (sched_keys c.schedules).Nodup) :
    ((merge_page (merge_page [] p1) p2).map MChannel.pa_id).Nodup ∧
    ∀ c ∈ merge_page (merge_page [] p1) p2,
      (sched_keys c.schedules).Nodup ∧
      ∀ k, k ∈ sched_keys c.schedules ↔
        (chan_keys p1 c.pa_id k ∨ chan_keys p2 c.pa_id k) := by
  have hnd : ((merge_page (merge_page [] p1) p2).map MChannel.pa_id).Nodup :=
    merge_page_nodup p2 _ (merge_page_nodup p1 [] (by simp))
  refine ⟨hnd, fun c hc => ⟨?_, fun k => ?_⟩⟩
  · exact merge_page_sched_nodup p2 _
      (merge_page_sched_nodup p1 [] (by intro c2 hc2; cases hc2) h1) h2 c hc
  · have hf : find_chan (merge_page (merge_page [] p1) p2) c.pa_id = some c :=
      find_chan_of_mem _ hnd c hc
    have hmem : k ∈ sched_keys c.schedules ↔
        acc_keys (merge_page (merge_page [] p1) p2) c.pa_id k := by
      constructor
      · intro h
        exact ⟨c, hf, h⟩
      · rintro ⟨c2, hc2, hk⟩
        rw [hf] at hc2
        injection hc2 with h
        rw [h]
        exact hk
    rw [hmem, acc_keys_merge_page p2, acc_keys_merge_page p1]
    have hnil := acc_keys_nil c.pa_id k
    tauto

/-- Witness for C1 at two concrete well-formed hour pages. -/
theorem claim_c1_witness :
    ((merge_page (merge_page []
        [⟨1, none, "BBC One", "", [⟨10, "2025-01-15T20:00:00Z", "News"⟩]⟩])
        [⟨1, none, "BBC One", "",
          [⟨10, "2025-01-15T20:00:00Z", "News"⟩,
           ⟨11, "2025-01-15T20:30:00Z", "Film"⟩]⟩]).map MChannel.pa_id).Nodup :=
  (claim_c1
    [⟨1, none, "BBC One", "", [⟨10, "2025-01-15T20:00:00Z", "News"⟩]⟩]
    [⟨1, none, "BBC One", "",
      [⟨10, "2025-01-15T20:00:00Z", "News"⟩,
       ⟨11, "2025-01-15T20:30:00Z", "Film"⟩]⟩]
    (by decide) (by decide)).1

/-! ## Claim C2: merge identity and first-seen metadata -/

/-- C2 counterexample: two hour pages carrying channels with the same
slug but different provider ids.  Under the claimed identity (slug when
present) they would merge into one channel; the code keys the merge on
`pa_id` alone and keeps both, so the result holds two distinct channels
with equal claimed identity. -/
theorem claim_c2_counterexample :
    fetch_multiple_hours
        (fun h => if h = 0
          then .ok [⟨1, some "bbc-one", "BBC One", "logo1", []⟩]
          else .ok [⟨2, some "bbc-one", "BBC One HD", "logo2", []⟩]) 0 1 false
      = .ok [⟨1, some "bbc-one", "BBC One", "logo1", []⟩,
             ⟨2, some "bbc-one", "BBC One HD", "logo2", []⟩] ∧
    chan_identity_spec ⟨1, some "bbc-one", "BBC One", "logo1", []⟩
      = chan_identity_spec ⟨2, some "bbc-one", "BBC One HD", "logo2", []⟩ ∧
    (⟨1, some "bbc-one", "BBC One", "logo1", []⟩ : MChannel)
      ≠ ⟨2, some "bbc-one", "BBC One HD", "logo2", []⟩ := by
  exact ⟨by decide, by decide, by decide⟩

/-- C2 (amended): during range merging the channel identity is the
provider id `pa_id` alone (the slug plays no role), and for every
sequence of fetched pages, the metadata stored for a `pa_id` in the
merged accumulator is exactly that of the first channel occurrence with
that `pa_id` across the concatenated pages — later occurrences never
overwrite it. -/
theorem claim_c2 (pages : List (List MChannel)) (pid : Nat) :
    meta_view (pages.foldl merge_page []) pid = meta_view pages.flatten pid := by
  have h := meta_view_fold pages [] [] (fun _ => rfl) pid
  simpa using h

/-! ## Claim C6: day-range merge order independence -/

/-- C6: merging three day datasets sequentially equals first merging
days 2 and 3 into one dataset and then merging that result into day 1's
dataset.  The `Nodup` hypothesis on day 2's channel ids always holds for
real day datasets, which are `fetch_multiple_hours` outputs
(`fetch_multiple_hours_nodup`). -/
theorem claim_c6 (g : Nat → Except FetchErr (List MChannel))
    (d1 d2 d3 : List MChannel)
    (h1 : g 1 = .ok d1) (h2 : g 2 = .ok d2) (h3 : g 3 = .ok d3)
    (hnd : (d2.map MChannel.pa_id).Nodup) :
    fetch_multiple_days g 1 3 false
      = .ok (merge_page (merge_page (merge_page [] d1) d2) d3) ∧
    merge_page (merge_page (merge_page [] d1) d2) d3
      = merge_page (merge_page [] d1) (merge_page (merge_page [] d2) d3) := by
  constructor
  · unfold fetch_multiple_days
    rw [if_neg (by omega)]
    rw [show List.range' 1 (3 + 1 - 1) = [1, 2, 3] from rfl]
    simp only [fetch_hours_go, h1, h2, h3]
  · rw [merge_page_assoc d3 (merge_page [] d1) d2 hnd, merge_page_empty d2 hnd]

/-- Witness for C6 at three concrete one-channel day datasets. -/
theorem claim_c6_witness :
    fetch_multiple_days
        (fun i => if i = 1 then .ok [⟨1, none, "Day1", "", []⟩]
          else if i = 2 then .ok [⟨2, none, "Day2", "", []⟩]
          else .ok [⟨1, none, "Day3", "", []⟩]) 1 3 false
      = .ok (merge_page (merge_page (merge_page [] [⟨1, none, "Day1", "", []⟩])
          [⟨2, none, "Day2", "", []⟩]) [⟨1, none, "Day3", "", []⟩]) ∧
    merge_page (merge_page (merge_page [] [⟨1, none, "Day1", "", []⟩])
        [⟨2, none, "Day2", "", []⟩]) [⟨1, none, "Day3", "", []⟩]
      = merge_page (merge_page [] [⟨1, none, "Day1", "", []⟩])
          (merge_page (merge_page [] [⟨2, none, "Day2", "", []⟩])
            [⟨1, none, "Day3", "", []⟩]) :=
  claim_c6
    (fun i => if i = 1 then .ok [⟨1, none, "Day1", "", []⟩]
      else if i = 2 then .ok [⟨2, none, "Day2", "", []⟩]
      else .ok [⟨1, none, "Day3", "", []⟩])
    [⟨1, none, "Day1", "", []⟩] [⟨2, none, "Day2", "", []⟩]
    [⟨1, none, "Day3", "", []⟩] rfl rfl rfl (by decide)

/-! ## Claims C7 and C8: stop-time computation -/

theorem parse_programme_ok (s : RawSchedule) (cid : ChannelId) (p : Programme)
    (h : parse_programme s cid = .ok p) :
    s.duration.isSome = true ∧
    p.stop.epochMicro
      = (p.start.epochMicro - p.start.epochMicro % 60000000)
        + (s.duration.getD 0) * 60 * 1000000 ∧
    p.stop.tzMin = p.start.tzMin := by
  unfold parse_programme at h
  cases hpid : s.pa_id with
  | none => rw [hpid] at h; simp at h
  | some pid =>
  rw [hpid] at h
  cases ht : s.title with
  | none => rw [ht] at h; simp at h
  | some t =>
  rw [ht] at h
  cases hsa : s.start_at with
  | none => rw [hsa] at h; simp at h
  | some sa =>
  rw [hsa] at h
  cases hd : s.duration with
  | none => rw [hd] at h; simp at h
  | some dur =>
  rw [hd] at h
  have h2 : (match fromisoformat (replace_z sa) with
      | Except.error e => Except.error ("Invalid start_at format: " ++ e)
      | Except.ok start => Except.ok
          { pa_id := pid, title := t, type := s.type.getD "", start := start,
            stop := from_timestamp_micro
              (timestamp_micro (replace_sec_micro_zero start) + dur * 60 * 1000000)
              start.tzMin,
            channel := cid, image_url := s.image_url.getD "",
            new := s.new.getD false }) = Except.ok p := h
  cases hiso : fromisoformat (replace_z sa) with
  | error e => rw [hiso] at h2; simp at h2
  | ok start =>
  rw [hiso] at h2
  simp only [Except.ok.injEq] at h2
  refine ⟨rfl, ?_, ?_⟩
  · rw [← h2]
    simp [from_timestamp_micro, timestamp_micro, replace_sec_micro_zero]
  · rw [← h2]
    simp [from_timestamp_micro, timestamp_micro, replace_sec_micro_zero]

/-- C7: parsing the worked one-channel example yields a programme whose
XMLTV start and stop render as `20250115200000 +0000` and
`20250115203000 +0000`; and in general every successfully parsed
programme has stop instant = start instant truncated to the whole
minute plus duration-in-minutes in seconds, in the timezone of start. -/
theorem claim_c7 :
    ((parse_json [example_channel]).map
      (fun st => st.programmes.map
        (fun p => (format_xmltv_time p.start, format_xmltv_time p.stop)))
      = .ok [("20250115200000 +0000", "20250115203000 +0000")]) ∧
    (∀ (s : RawSchedule) (cid : ChannelId) (p : Programme),
      parse_programme s cid = .ok p →
      p.stop.epochMicro
        = (p.start.epochMicro - p.start.epochMicro % 60000000)
          + (s.duration.getD 0) * 60 * 1000000 ∧
      p.stop.tzMin = p.start.tzMin) := by
  constructor
  · decide
  · intro s cid p h
    exact ⟨(parse_programme_ok s cid p h).2.1, (parse_programme_ok s cid p h).2.2⟩

/-- Witness for C7 at the worked example schedule. -/
theorem claim_c7_witness :
    (⟨1736973000000000, some 0⟩ : PyDateTime).epochMicro
        = ((⟨1736971200000000, some 0⟩ : PyDateTime).epochMicro
            - (⟨1736971200000000, some 0⟩ : PyDateTime).epochMicro % 60000000)
          + (example_schedule.duration.getD 0) * 60 * 1000000 ∧
    (⟨1736973000000000, some 0⟩ : PyDateTime).tzMin
        = (⟨1736971200000000, some 0⟩ : PyDateTime).tzMin :=
  claim_c7.2 example_schedule (Sum.inr 1)
    ⟨100, "News", "", ⟨1736971200000000, some 0⟩, ⟨1736973000000000, some 0⟩,
      Sum.inr 1, "", false⟩
    (by decide)

/-- C8 counterexample: a schedule with duration 0 whose start carries 30
seconds parses successfully, yet its stop (the minute-truncated start)
is strictly before its start — the claimed `stop ≥ start` fails for a
non-negative duration. -/
theorem claim_c8_counterexample :
    parse_programme
        ⟨some 100, some "News", some "2025-01-15T20:00:30Z", some 0,
          none, none, none⟩ (Sum.inr 1)
      = .ok ⟨100, "News", "", ⟨1736971230000000, some 0⟩,
          ⟨1736971200000000, some 0⟩, Sum.inr 1, "", false⟩ ∧
    (⟨1736971200000000, some 0⟩ : PyDateTime).epochMicro
      < (⟨1736971230000000, some 0⟩ : PyDateTime).epochMicro := by
  exact ⟨by decide, by decide⟩

/-- C8 (amended): for every successfully parsed schedule entry whose
duration is at least one minute, the stop instant is at or after the
start instant (duration 0 with a sub-minute start component violates the
original claim, as the counterexample shows). -/
theorem claim_c8 (s : RawSchedule) (cid : ChannelId) (p : Programme) (d : Int)
    (h : parse_programme s cid = .ok p) (hd : s.duration = some d)
    (hpos : 1 ≤ d) :
    p.start.epochMicro ≤ p.stop.epochMicro := by
  obtain ⟨_, heq, _⟩ := parse_programme_ok s cid p h
  rw [hd] at heq
  simp only [Option.getD_some] at heq
  have hr1 : 0 ≤ p.start.epochMicro % 60000000 :=
    Int.emod_nonneg _ (by norm_num)
  have hr2 : p.start.epochMicro % 60000000 < 60000000 :=
    Int.emod_lt_of_pos _ (by norm_num)
  omega

/-- Witness for C8 at the worked example schedule (duration 30). -/
theorem claim_c8_witness :
    (⟨1736971200000000, some 0⟩ : PyDateTime).epochMicro
      ≤ (⟨1736973000000000, some 0⟩ : PyDateTime).epochMicro :=
  claim_c8 example_schedule (Sum.inr 1)
    ⟨100, "News", "", ⟨1736971200000000, some 0⟩, ⟨1736973000000000, some 0⟩,
      Sum.inr 1, "", false⟩
    30 (by decide) rfl (by norm_num)

/-! ## Claim C10: the converter neither merges nor deduplicates -/

theorem parse_schedules_append (l : List RawSchedule) (cid : ChannelId) :
    ∀ acc : List Programme,
      parse_schedules l cid acc
        = (parse_schedules l cid []).map (fun r => acc ++ r) := by
  induction l with
  | nil => intro acc; simp [parse_schedules, Except.map]
  | cons s l ih =>
    intro acc
    simp only [parse_schedules]
    cases hp : parse_programme s cid with
    | error e => simp [Except.map]
    | ok p =>
      show parse_schedules l cid (acc ++ [p])
          = Except.map (fun r => acc ++ r) (parse_schedules l cid ([] ++ [p]))
      rw [ih (acc ++ [p]), ih ([] ++ [p])]
      cases hr : parse_schedules l cid [] with
      | error e => simp [Except.map]
      | ok r => simp [Except.map]

theorem parse_channel_ok (st : ConvState) (ch : RawChannel) (st2 : ConvState)
    (h : parse_channel st ch = .ok st2) :
    st2.programmes = st.programmes ++ progs_of ch ∧
    st2.channels = dict_insert st.channels (raw_identity ch) (mk_channel_info ch) := by
  unfold parse_channel at h
  cases hpid : ch.pa_id with
  | none => rw [hpid] at h; simp at h
  | some pid =>
  rw [hpid] at h
  cases ht : ch.title with
  | none => rw [ht] at h; simp at h
  | some t =>
  rw [ht] at h
  cases hs : ch.schedules with
  | none => rw [hs] at h; simp at h
  | some scheds =>
  rw [hs] at h
  have h2 : (match parse_schedules scheds
        ((match ch.slug with
          | some s => Sum.inl s
          | none => Sum.inr pid) : ChannelId) st.programmes with
      | Except.ok progs => Except.ok (ConvState.mk
          (dict_insert st.channels
            ((match ch.slug with
              | some s => Sum.inl s
              | none => Sum.inr pid) : ChannelId)
            (ChannelInfo.mk
              ((match ch.slug with
                | some s => Sum.inl s
                | none => Sum.inr pid) : ChannelId)
              t (ch.slug.getD "") (ch.logo_url.getD "") (ch.epg.getD "") pid))
          progs)
      | Except.error e => Except.error e) = Except.ok st2 := h
  have hcid : ((match ch.slug with
      | some s => Sum.inl s
      | none => Sum.inr pid) : ChannelId) = raw_identity ch := by
    unfold raw_identity
    cases ch.slug with
    | some s => rfl
    | none => simp [hpid]
  rw [hcid] at h2
  have hinfo : ChannelInfo.mk (raw_identity ch) t (ch.slug.getD "")
      (ch.logo_url.getD "") (ch.epg.getD "") pid = mk_channel_info ch := by
    unfold mk_channel_info
    simp [hpid, ht]
  rw [hinfo] at h2
  rw [parse_schedules_append scheds (raw_identity ch) st.programmes] at h2
  cases hr : parse_schedules scheds (raw_identity ch) [] with
  | error e => rw [hr] at h2; simp [Except.map] at h2
  | ok r =>
    rw [hr] at h2
    simp only [Except.map, Except.ok.injEq] at h2
    have hprogs : progs_of ch = r := by
      unfold progs_of
      rw [hs]
      simp only [Option.getD_some]
      rw [hr]
    rw [← h2]
    exact ⟨by rw [hprogs], rfl⟩

theorem chan_lookup_dict_insert (m : List (ChannelId × ChannelInfo))
    (k : ChannelId) (v : ChannelInfo) (k2 : ChannelId) :
    chan_lookup (dict_insert m k v) k2 =
      if k2 = k then some v else chan_lookup m k2 := by
  induction m with
  | nil =>
    by_cases h : k2 = k
    · subst h
      simp [dict_insert, chan_lookup]
    · have h2 : ¬ k = k2 := fun hk => h hk.symm
      simp [dict_insert, chan_lookup, h, h2]
  | cons a m ih =>
    obtain ⟨k1, v1⟩ := a
    by_cases hk : k1 = k
    · subst hk
      rw [show dict_insert ((k1, v1) :: m) k1 v = (k1, v) :: m
        from by simp [dict_insert]]
      by_cases h2 : k2 = k1
      · subst h2
        simp [chan_lookup]
      · have h4 : ¬ k1 = k2 := fun hk2 => h2 hk2.symm
        simp [chan_lookup, h2, h4]
    · rw [show dict_insert ((k1, v1) :: m) k v = (k1, v1) :: dict_insert m k v
        from by simp [dict_insert, hk]]
      by_cases h1 : k1 = k2
      · have h2 : ¬ k2 = k := fun hc => hk (h1.trans hc)
        simp [chan_lookup, h1, h2]
      · have hlk : ∀ rest : List (ChannelId × ChannelInfo),
            chan_lookup ((k1, v1) :: rest) k2 = chan_lookup rest k2 := by
          intro rest
          simp [chan_lookup, h1]
        rw [hlk, hlk, ih]

theorem find?_append_of_some {α : Type} (p : α → Bool) (l1 l2 : List α) (a : α)
    (h : l1.find? p = some a) : (l1 ++ l2).find? p = some a := by
  rw [List.find?_append, h]
  rfl

theorem find?_append_of_none {α : Type} (p : α → Bool) (l1 l2 : List α)
    (h : l1.find? p = none) : (l1 ++ l2).find? p = l2.find? p := by
  rw [List.find?_append, h]
  rfl

theorem parse_json_go_ok (data : List RawChannel) :
    ∀ (st st2 : ConvState), parse_json_go data st = .ok st2 →
      st2.programmes = st.programmes ++ data.flatMap progs_of ∧
      ∀ cid, chan_lookup st2.channels cid =
        match data.reverse.find? (fun ch => decide (raw_identity ch = cid)) with
        | some ch => some (mk_channel_info ch)
        | none => chan_lookup st.channels cid := by
  induction data with
  | nil =>
    intro st st2 h
    injection h with h2
    subst h2
    simp
  | cons ch data ih =>
    intro st st2 h
    simp only [parse_json_go] at h
    cases hpc : parse_channel st ch with
    | error e =>
      rw [hpc] at h
      have h3 : (Except.error e : Except String ConvState) = .ok st2 := h
      cases h3
    | ok st1 =>
      rw [hpc] at h
      have h3 : parse_json_go data st1 = .ok st2 := h
      obtain ⟨hp1, hp2⟩ := parse_channel_ok st ch st1 hpc
      obtain ⟨hq1, hq2⟩ := ih st1 st2 h3
      constructor
      · rw [hq1, hp1, List.append_assoc]
        simp
      · intro cid
        rw [hq2 cid]
        rw [show (ch :: data).reverse = data.reverse ++ [ch] from by simp]
        cases hfr : data.reverse.find? (fun c2 => decide (raw_identity c2 = cid)) with
        | some c2 =>
          rw [find?_append_of_some _ _ _ _ hfr]
        | none =>
          rw [find?_append_of_none _ _ _ hfr]
          by_cases hcid : raw_identity ch = cid
          · rw [show List.find? (fun c2 => decide (raw_identity c2 = cid)) [ch]
                = some ch from by simp [hcid]]
            rw [hp2, chan_lookup_dict_insert, if_pos hcid.symm]
          · rw [show List.find? (fun c2 => decide (raw_identity c2 = cid)) [ch]
                = none from by simp [hcid]]
            rw [hp2, chan_lookup_dict_insert,
              if_neg (fun hc => hcid hc.symm)]

/-- C10: the converter performs no merging and no deduplication of its
own.  On every successfully parsed raw channel list the programme list
is the plain concatenation of every occurrence's programmes (duplicate
channel objects therefore contribute duplicate programme elements), and
the channel record stored under an identity (slug when present, else
`pa_id`) is that of the LAST occurrence with that identity — later
occurrences overwrite earlier metadata. -/
theorem claim_c10 (data : List RawChannel) (st : ConvState)
    (h : parse_json data = .ok st) :
    st.programmes = data.flatMap progs_of ∧
    ∀ cid, chan_lookup st.channels cid =
      (data.reverse.find? (fun ch => decide (raw_identity ch = cid))).map
        mk_channel_info := by
  obtain ⟨h1, h2⟩ := parse_json_go_ok data ⟨[], []⟩ st h
  constructor
  · simpa using h1
  · intro cid
    rw [h2 cid]
    cases hf : data.reverse.find? (fun ch => decide (raw_identity ch = cid)) with
    | some ch => rfl
    | none => rfl

/-- Witness for C10: the worked example channel duplicated in the raw
input yields its programme twice in the converter output. -/
theorem claim_c10_witness :
    (ConvState.mk [((Sum.inr 1 : ChannelId), ChannelInfo.mk (Sum.inr 1) "BBC" "" "" "" 1)]
        [Programme.mk 100 "News" "" ⟨1736971200000000, some 0⟩
           ⟨1736973000000000, some 0⟩ (Sum.inr 1) "" false,
         Programme.mk 100 "News" "" ⟨1736971200000000, some 0⟩
           ⟨1736973000000000, some 0⟩ (Sum.inr 1) "" false]).programmes
      = [example_channel, example_channel].flatMap progs_of :=
  (claim_c10 [example_channel, example_channel]
    (ConvState.mk [((Sum.inr 1 : ChannelId), ChannelInfo.mk (Sum.inr 1) "BBC" "" "" "" 1)]
      [Programme.mk 100 "News" "" ⟨1736971200000000, some 0⟩
         ⟨1736973000000000, some 0⟩ (Sum.inr 1) "" false,
       Programme.mk 100 "News" "" ⟨1736971200000000, some 0⟩
         ⟨1736973000000000, some 0⟩ (Sum.inr 1) "" false])
    (by decide)).1
